import Mathlib

/-!
Verification of the `AsyncAutocomplete` component (src/src/AsyncAutocomplete.tsx).

The pure computational core of the component is shallowly embedded here:

* `Json` models JavaScript runtime values (including `undefined`, which JS
  treats as a first-class value).
* `getValueFromPath` models the helper of the same name (lines 31-36): a
  field spec is either a dotted path string, resolved with lodash `get`,
  or an extraction function applied verbatim.
* `buildUrl` models the URL builder (lines 87-102), including the
  `URLSearchParams` form-urlencoding of keys and values.
* `baseQueryKey` models the query-key construction (lines 128-129).
* `deriveOptions` models the options memo (lines 175-186).
* `handleChange` models the selection callback dispatch (lines 189-204).
* `findOptionByValue` models the selection resolver (lines 206-225).
* `handleScrollFires` models the infinite-scroll guard (lines 228-238).
* The focus latch (lines 123-124, 146, 169, 240-243) is modelled as a
  small event-driven state machine `runFocused`.

JavaScript numbers are modelled as `Int` (all numeric data relevant to the
claims — ids and query parameter values — is integral); scroll geometry is
modelled over `Rat` since browser pixel metrics may be fractional.
-/

/-- JavaScript runtime values as the component manipulates them.  `undef` is
JS `undefined` (distinct from `null`); objects are ordered field lists. -/
inductive Json where
  | undef : Json
  | null : Json
  | bool : Bool → Json
  | num : Int → Json
  | str : String → Json
  | arr : List Json → Json
  | obj : List (String × Json) → Json

/-- JS truthiness: `undefined`, `null`, `false`, `0` and `""` are falsy;
every other value (including all objects and arrays) is truthy. -/
def Json.truthy : Json → Bool
  | .undef => false
  | .null => false
  | .bool b => b
  | .num n => n != 0
  | .str s => s != ""
  | .arr _ => true
  | .obj _ => true

/-- JS `Number.prototype.toString` for integral numbers. -/
def jsIntToString (n : Int) : String := toString n

mutual
/-- JS `String(v)` / `v.toString()` coercion: `undefined`/`null` print their
names, arrays join their members with `","` (with `null`/`undefined`
members printing as empty), plain objects print `"[object Object]"`. -/
def jsToString : Json → String
  | .undef => "undefined"
  | .null => "null"
  | .bool b => if b then "true" else "false"
  | .num n => jsIntToString n
  | .str s => s
  | .arr xs => String.intercalate "," (jsToStringList xs)
  | .obj _ => "[object Object]"

def jsToStringList : List Json → List String
  | [] => []
  | .undef :: rest => "" :: jsToStringList rest
  | .null :: rest => "" :: jsToStringList rest
  | x :: rest => jsToString x :: jsToStringList rest
end

/-- JS SameValueZero comparison, as used by `Array.prototype.includes`.
Primitives compare by value.  Two objects (or arrays) compare by reference;
the occurrences compared by this component always come from different
allocations (caller-supplied value vs. fetched option data), so distinct
object references are modelled as never equal. -/
def sameValueZero : Json → Json → Bool
  | .undef, .undef => true
  | .null, .null => true
  | .bool a, .bool b => a == b
  | .num a, .num b => a == b
  | .str a, .str b => a == b
  | _, _ => false

/-- `xs.includes(v)` for a JS array. -/
def jsIncludes (xs : List Json) (v : Json) : Bool :=
  xs.any (fun x => sameValueZero x v)

/-- Numeric value of a list of decimal digit characters. -/
def digitsVal (cs : List Char) : Nat :=
  cs.foldl (fun a c => a * 10 + (c.toNat - 48)) 0

/-- A JS array treats a string property as an index only when it is the
canonical decimal form of a natural number (`"0"`, or digits without a
leading zero). -/
def segIndex (cs : List Char) : Option Nat :=
  if cs.all Char.isDigit && cs != [] && (cs.head? != some '0' || cs == ['0']) then
    some (digitsVal cs)
  else none

/-- One step of lodash `get` traversal: read property `seg` of `j`.
Objects yield the named field, arrays yield the numeric index; reading a
property of any other value (or a missing field/index) yields `undefined`. -/
def jsonProp (j : Json) (seg : String) : Json :=
  match j with
  | .obj fs =>
    match fs.lookup seg with
    | some v => v
    | none => .undef
  | .arr xs =>
    match segIndex seg.data with
    | some i =>
      match xs.get? i with
      | some v => v
      | none => .undef
    | none => .undef
  | _ => (.undef)

/-- Traversal over a list of path segments: lodash `get` reads one property
per segment; as soon as the current value is not an indexable object the
remaining reads yield `undefined`. -/
def jsonGetSegs : Json → List String → Json
  | j, [] => j
  | j, seg :: rest => jsonGetSegs (jsonProp j seg) rest

/-- Split a character list at every `'.'` (the semantics of
`String.splitOn "."`, reimplemented by structural recursion). -/
def splitOnDot : List Char → List (List Char)
  | [] => [[]]
  | c :: rest =>
    if c = '.' then [] :: splitOnDot rest
    else
      match splitOnDot rest with
      | [] => [[c]]
      | seg :: segs => (c :: seg) :: segs

/-- The segments of a dotted path string. -/
def splitPath (p : String) : List String :=
  (splitOnDot p.data).map List.asString

/-- Modelled from the spec (§4.1) and the documented behaviour of lodash: the
third-party `get(item, path)` (lodash, not part of src/) splits the dotted
path on `"."` and traverses segment by segment, returning `undefined`
(never throwing) when a segment cannot be traversed. -/
def lodashGet (item : Json) (path : String) : Json :=
  jsonGetSegs item (splitPath path)

/-- A field spec: either a dotted path string or an extraction function
(`PathOrFunction` in the source). -/
inductive FieldSpec where
  | path : String → FieldSpec
  | fn : (Json → Json) → FieldSpec

/-- `getValueFromPath` (source lines 31-36): apply a function spec verbatim,
otherwise resolve the dotted path with lodash `get`. -/
def getValueFromPath (item : Json) (pathOrFn : FieldSpec) : Json :=
  match pathOrFn with
  | .fn f => f item
  | .path p => lodashGet item p

/-- A JS `string | number` scalar, as allowed for query-parameter values
and selection ids. -/
inductive Scalar where
  | str : String → Scalar
  | num : Int → Scalar
  deriving DecidableEq

/-- `value.toString()` on a `string | number` scalar. -/
def Scalar.toString : Scalar → String
  | .str s => s
  | .num n => jsIntToString n

/-- The static query-parameter map (`QueryParams` in the source).  JS object
literals iterate string keys in insertion order, so the map is embedded as
an association list in that order. -/
def QueryParams : Type := List (String × Scalar)

/-- Upper-case hexadecimal digit. -/
def hexDigit (n : Nat) : Char :=
  if n < 10 then Char.ofNat (48 + n) else Char.ofNat (55 + n)

/-- UTF-8 encoding of one code point, as byte values. -/
def utf8Bytes (c : Char) : List Nat :=
  let n := c.toNat
  if n < 0x80 then [n]
  else if n < 0x800 then [0xC0 + n / 64, 0x80 + n % 64]
  else if n < 0x10000 then [0xE0 + n / 4096, 0x80 + (n / 64) % 64, 0x80 + n % 64]
  else [0xF0 + n / 262144, 0x80 + (n / 4096) % 64, 0x80 + (n / 64) % 64, 0x80 + n % 64]

/-- `application/x-www-form-urlencoded` escaping of one byte, as performed
by `URLSearchParams.toString()`: alphanumerics and `*-._` stay, space
becomes `+`, every other byte becomes `%XX`. -/
def formEncodeByte (n : Nat) : String :=
  if n == 0x2A || n == 0x2D || n == 0x2E || n == 0x5F
      || (0x30 ≤ n && n ≤ 0x39) || (0x41 ≤ n && n ≤ 0x5A) || (0x61 ≤ n && n ≤ 0x7A) then
    String.singleton (Char.ofNat n)
  else if n == 0x20 then "+"
  else "%" ++ String.singleton (hexDigit (n / 16)) ++ String.singleton (hexDigit (n % 16))

/-- Form-urlencoding of a string (UTF-8 bytes, each escaped). -/
def formEncode (s : String) : String :=
  String.join (s.data.map (fun c => String.join ((utf8Bytes c).map formEncodeByte)))

/-- The `(key, value)` pairs appended to the `URLSearchParams` of `buildUrl`
(source lines 88-98): the `search` term first, when `searchable` is true and
the term is a non-empty string, then every `queryParams` entry in map order
with its value coerced by `toString()`. -/
def buildUrlPairs (params : QueryParams) (searchTerm : String) (searchable : Bool) :
    List (String × String) :=
  (if searchable && searchTerm != "" then [("search", searchTerm)] else [])
    ++ params.map (fun kv => (kv.1, kv.2.toString))

/-- `URLSearchParams.toString()`: the pairs form-urlencoded and joined
with `&`. -/
def searchParamsToString (pairs : List (String × String)) : String :=
  String.intercalate "&" (pairs.map (fun kv => formEncode kv.1 ++ "=" ++ formEncode kv.2))

/-- `buildUrl` (source lines 87-102). -/
def buildUrl (baseUrl : String) (params : QueryParams) (searchTerm : String)
    (searchable : Bool) : String :=
  let queryString := searchParamsToString (buildUrlPairs params searchTerm searchable)
  if queryString != "" then
    baseUrl ++ (if baseUrl.data.contains '?' then "&" else "?") ++ queryString
  else baseUrl

/-- An element of a react-query `QueryKey` as this component builds it:
a string, the query-parameter map, or a boolean. -/
inductive KeyElem where
  | str : String → KeyElem
  | params : List (String × Scalar) → KeyElem
  | bool : Bool → KeyElem
  deriving DecidableEq

/-- `baseQueryKey` (source lines 128-129): the namespace, the url, the
parameter map and the searchable flag, with the current input text pushed
at the end exactly when `searchable` is set. -/
def baseQueryKey (url : String) (queryParams : QueryParams) (searchable : Bool)
    (inputValue : String) : List KeyElem :=
  let k := [KeyElem.str "async-autocomplete", KeyElem.str url,
            KeyElem.params queryParams, KeyElem.bool searchable]
  if searchable then k ++ [KeyElem.str inputValue] else k

/-- `Array.prototype.flatMap` splicing: an array result contributes its
elements, any other result (including `undefined`) contributes itself. -/
def jsFlatMapStep (r : Json) : List Json :=
  match r with
  | .arr xs => xs
  | v => [v]

/-- The options memo (source lines 175-186).  `infiniteDataPages` is
`infiniteQuery.data?.pages`; `regularData` is `regularQuery.data`
(`undef` while unsettled, and tested for truthiness as in the source). -/
def deriveOptions (infinite : Bool) (infiniteDataPages : Option (List Json))
    (regularData : Json) (optionsPath : Option FieldSpec) : Json :=
  match infinite, infiniteDataPages with
  | true, some pages =>
    Json.arr (pages.flatMap (fun page =>
      jsFlatMapStep (match optionsPath with
        | some p => getValueFromPath page p
        | none => page)))
  | _, _ =>
    if regularData.truthy then
      match optionsPath with
      | some p => getValueFromPath regularData p
      | none => regularData
    else Json.arr []

/-- `handleChange` (source lines 189-204), abstracted over whether an
`onChange` callback was configured.  The result is the `(value, option)`
argument pair passed to `onChange`, or `none` when `onChange` is not
invoked. -/
def handleChange (hasOnChange : Bool) (valueField : FieldSpec) (option : Json) :
    Option (Json × Json) :=
  if option.truthy && hasOnChange then
    match option with
    | .arr items =>
      some (Json.arr (items.map (fun item => getValueFromPath item valueField)), Json.arr items)
    | _ => some (getValueFromPath option valueField, option)
  else none

/-- The matcher of the scalar branch of `findOptionByValue` (source line
209): the extracted value of the option, coerced with `String(..)`, strictly
equals the `toString()` of the scalar. -/
def scalarMatch (valueField : FieldSpec) (target : String) (option : Json) : Bool :=
  jsToString (getValueFromPath option valueField) == target

/-- `findOptionByValue` (source lines 206-225). -/
def findOptionByValue (options : List Json) (valueField : FieldSpec) (val : Json) : Json :=
  if !val.truthy then Json.null
  else
    match val with
    | .str s => (options.find? (scalarMatch valueField s)).getD Json.null
    | .num n => (options.find? (scalarMatch valueField (jsIntToString n))).getD Json.null
    | .arr xs =>
      match xs.get? 0 with
      | some (.str _) =>
        Json.arr (options.filter (fun o =>
          jsIncludes xs (Json.str (jsToString (getValueFromPath o valueField)))))
      | some (.num _) =>
        Json.arr (options.filter (fun o => jsIncludes xs (getValueFromPath o valueField)))
      | _ => Json.arr xs
    | v => v

/-- Modelled from the spec (§4.6): the scalar case of the selection
resolver as the spec words it — the first option whose extracted value,
stringified, equals the stringified scalar, else `null`. -/
def resolveScalar_spec (options : List Json) (valueField : FieldSpec) (valStr : String) : Json :=
  (options.find? (fun o => jsToString (getValueFromPath o valueField) == valStr)).getD Json.null

/-- Modelled from the spec (§4.6): the list case of the selection resolver
as the spec words it — the options (in options order) whose extracted
value, stringified, is a member of the stringified id list. -/
def resolveList_spec (options : List Json) (valueField : FieldSpec) (ids : List String) : Json :=
  Json.arr (options.filter (fun o => ids.contains (jsToString (getValueFromPath o valueField))))

/-- Scroll geometry of the listbox, over `Rat` since browser metrics may be
fractional. -/
structure ScrollMetrics where
  scrollTop : Rat
  clientHeight : Rat
  scrollHeight : Rat

/-- The guard of `handleScroll` (source lines 228-238): whether one
`fetchNextPage()` call is issued for the scroll event. -/
def handleScrollFires (infinite : Bool) (m : ScrollMetrics)
    (hasNextPage isFetchingNextPage : Bool) : Bool :=
  infinite && decide (m.scrollTop + m.clientHeight ≥ m.scrollHeight - 50)
    && hasNextPage && !isFetchingNextPage

/-- The `url` prop: a static string, or a function of the page param. -/
inductive UrlSpec where
  | str : String → UrlSpec
  | fn : (Option QueryParams → String) → UrlSpec

/-- Whether `typeof url` is the string type (source lines 141, 146). -/
def UrlSpec.isString : UrlSpec → Bool
  | .str _ => true
  | .fn _ => false

/-- The `enabled` option of the regular query (source line 146). -/
def regularEnabled (focusedInput infinite : Bool) (url : UrlSpec) : Bool :=
  focusedInput && !infinite && url.isString

/-- The `enabled` option of the infinite query (source line 169). -/
def infiniteEnabled (focusedInput infinite : Bool) : Bool :=
  focusedInput && infinite

/-- Whether either query of the instance is enabled to fetch. -/
def fetchEnabled (infinite : Bool) (url : UrlSpec) (focusedInput : Bool) : Bool :=
  regularEnabled focusedInput infinite url || infiniteEnabled focusedInput infinite

/-- User-interface events delivered to the handlers of the component. -/
inductive UiEvent where
  | focus
  | inputChange : String → UiEvent
  | select : Json → UiEvent
  | scroll : ScrollMetrics → UiEvent

/-- Whether an event is a focus event. -/
def UiEvent.isFocus : UiEvent → Bool
  | .focus => true
  | _ => false

/-- Effect of one event on the `focusedInput` state: `handleFocus` (source
lines 240-243) sets it to `true`; no handler ever resets it — `inputChange`,
`select` and `scroll` leave it unchanged. -/
def stepFocused (focused : Bool) (e : UiEvent) : Bool :=
  if e.isFocus then true else focused

/-- The `focusedInput` state after a sequence of events, starting from the
initial `false` (source line 124). -/
def runFocused (es : List UiEvent) : Bool :=
  es.foldl stepFocused false

/-- Whether a JS value is indexable by lodash `get` (a plain object or an
array). -/
def isIndexable : Json → Bool
  | .obj _ => true
  | .arr _ => true
  | _ => false

/-- Modelled from the spec (§4.2, §8 item 7): the URL builder as the claim
words it — append the parameter map as query-string pairs, additionally
append a percent-encoded `search` parameter exactly when `searchable` is
true and the search text is non-empty, and join with `&` when the base
already contains `?`, else with `?`. -/
def buildUrl_spec (baseUrl : String) (params : QueryParams) (searchTerm : String)
    (searchable : Bool) : String :=
  let pairs := (if searchable && searchTerm != "" then [("search", searchTerm)] else [])
      ++ params.map (fun kv => (kv.1, kv.2.toString))
  let queryString :=
    String.intercalate "&" (pairs.map (fun kv => formEncode kv.1 ++ "=" ++ formEncode kv.2))
  if queryString == "" then baseUrl
  else baseUrl ++ (if baseUrl.data.contains '?' then "&" else "?") ++ queryString

/-- Claim C1: two configurations build structurally equal QueryKeys iff they
agree on the base URL, the query-parameter map, the searchable flag and —
when searchable — the search text; changing any one component changes the
key. -/
theorem baseQueryKey_sensitivity (u1 u2 : String) (p1 p2 : QueryParams)
    (s1 s2 : Bool) (i1 i2 : String) :
    baseQueryKey u1 p1 s1 i1 = baseQueryKey u2 p2 s2 i2 ↔
      (u1 = u2 ∧ p1 = p2 ∧ s1 = s2 ∧ (s1 = true → i1 = i2)) := by
  cases s1 <;> cases s2 <;> simp [baseQueryKey]

/-- Claim C4: contrary to the spec, an `optionsPath` that does not traverse
the settled response body does not yield an empty options list: the memo
derives `undefined` in single-page mode and a list containing `undefined`
per page in paginated mode. -/
theorem deriveOptions_missing_path :
    deriveOptions false none (Json.obj [("items", Json.arr [Json.obj [("id", Json.num 1)]])])
      (some (FieldSpec.path "data.results")) = Json.undef ∧
    deriveOptions true (some [Json.obj [("items", Json.arr [Json.obj [("id", Json.num 1)]])]])
      Json.undef (some (FieldSpec.path "data.results")) = Json.arr [Json.undef] ∧
    Json.undef ≠ Json.arr [] ∧
    Json.arr [Json.undef] ≠ Json.arr [] := by
  refine ⟨rfl, rfl, fun h => Json.noConfusion h, fun h => ?_⟩
  have h2 := Json.arr.inj h
  simp at h2

/-- Auxiliary: an `if` on a non-emptiness test equals the `if` with the
branches swapped on the emptiness test. -/
theorem ite_bne_flip (q base A : String) :
    (if q != "" then A else base) = (if q == "" then base else A) := by
  cases h : q == "" <;> simp [bne, h]

/-- Claim C5: `buildUrl` coincides with the claimed description (params
appended as query pairs, a form-encoded `search` parameter exactly when
searchable with non-empty text, `&` vs `?` joining), and satisfies the two
quoted examples, plus a percent-encoding example. -/
theorem buildUrl_correct :
    (∀ (base : String) (params : QueryParams) (term : String) (sb : Bool),
        buildUrl base params term sb = buildUrl_spec base params term sb) ∧
    buildUrl "http://x/y" [("a", Scalar.num 1)] "foo" true = "http://x/y?search=foo&a=1" ∧
    buildUrl "http://x/y?z=1" [] "" false = "http://x/y?z=1" ∧
    buildUrl "http://x/y" [] "a b&c" true = "http://x/y?search=a+b%26c" := by
  refine ⟨?_, by decide, by decide, by decide⟩
  intro base params term sb
  simp only [buildUrl, buildUrl_spec, searchParamsToString, buildUrlPairs]
  exact ite_bne_flip _ _ _

/-- Auxiliary: traversing any path from `undefined` stays `undefined`. -/
theorem jsonGetSegs_undef (segs : List String) : jsonGetSegs Json.undef segs = Json.undef := by
  induction segs with
  | nil => rfl
  | cons s rest ih => simpa [jsonGetSegs, jsonProp] using ih

/-- Claim C6: a function spec is applied verbatim; the dotted path
`company.name` extracts `Acme` from the quoted item while
`company.missing.x` yields `undefined`; and whenever the current value is
not indexable, resolving any remaining path yields `undefined` without
failing. -/
theorem getValueFromPath_resolution (item : Json) (f : Json → Json) :
    getValueFromPath item (FieldSpec.fn f) = f item ∧
    getValueFromPath (Json.obj [("company", Json.obj [("name", Json.str "Acme")])])
      (FieldSpec.path "company.name") = Json.str "Acme" ∧
    getValueFromPath (Json.obj [("company", Json.obj [("name", Json.str "Acme")])])
      (FieldSpec.path "company.missing.x") = Json.undef ∧
    (∀ (j : Json) (seg : String) (rest : List String), isIndexable j = false →
        jsonGetSegs j (seg :: rest) = Json.undef) := by
  refine ⟨rfl, rfl, rfl, ?_⟩
  intro j seg rest h
  have hp : jsonProp j seg = Json.undef := by
    cases j <;> simp_all [isIndexable, jsonProp]
  show jsonGetSegs (jsonProp j seg) rest = Json.undef
  rw [hp]
  exact jsonGetSegs_undef rest

/-- Witness for claim C6 at a non-indexable value. -/
theorem getValueFromPath_resolution_witness : jsonGetSegs (Json.num 5) ["a"] = Json.undef :=
  (getValueFromPath_resolution Json.null id).2.2.2 (Json.num 5) "a" [] rfl

/-- Claim C7: in paginated mode a scroll event issues `fetchNextPage` exactly
when the position is within 50 units of the scrollable end, a next page
exists and no page fetch is in flight; it never fires when `hasNextPage` is
false or a fetch is in flight. -/
theorem handleScroll_guard (infinite : Bool) (m : ScrollMetrics)
    (hasNextPage isFetchingNextPage : Bool) :
    (handleScrollFires infinite m hasNextPage isFetchingNextPage = true ↔
      (infinite = true ∧ m.scrollHeight - (m.scrollTop + m.clientHeight) ≤ 50 ∧
        hasNextPage = true ∧ isFetchingNextPage = false)) ∧
    (hasNextPage = false ∨ isFetchingNextPage = true →
      handleScrollFires infinite m hasNextPage isFetchingNextPage = false) := by
  have harith : (m.scrollTop + m.clientHeight ≥ m.scrollHeight - 50) ↔
      m.scrollHeight - (m.scrollTop + m.clientHeight) ≤ 50 := by
    constructor <;> intro h <;> linarith
  constructor
  · simp only [handleScrollFires, Bool.and_eq_true, Bool.not_eq_true',
      decide_eq_true_iff, harith]
    tauto
  · rintro (h | h) <;> simp [handleScrollFires, h]

/-- Witness for claim C7: no fetch fires without a next page. -/
theorem handleScroll_guard_witness :
    handleScrollFires true ⟨0, 100, 500⟩ false false = false :=
  (handleScroll_guard true ⟨0, 100, 500⟩ false false).2 (Or.inl rfl)

/-- Claim C2 as stated is false: on the falsy scalar `0` the resolver
returns `null` even though an option with stringified value `"0"` is
present and is what the claimed first-match rule selects. -/
theorem findOptionByValue_scalar_counterexample :
    findOptionByValue [Json.obj [("id", Json.num 0)]] (FieldSpec.path "id") (Json.num 0) =
      Json.null ∧
    resolveScalar_spec [Json.obj [("id", Json.num 0)]] (FieldSpec.path "id") (jsIntToString 0) =
      Json.obj [("id", Json.num 0)] ∧
    Json.null ≠ Json.obj [("id", Json.num 0)] :=
  ⟨rfl, rfl, fun h => Json.noConfusion h⟩

/-- Claim C2 (amended): `null`/`undefined` resolve to `null`; the falsy
scalars `0` and `""` also resolve to `null` unconditionally; every other
string or number scalar resolves to the first option whose stringified
extracted value equals the stringified scalar, else `null`. -/
theorem findOptionByValue_scalar (options : List Json) (vf : FieldSpec) :
    findOptionByValue options vf Json.null = Json.null ∧
    findOptionByValue options vf Json.undef = Json.null ∧
    findOptionByValue options vf (Json.num 0) = Json.null ∧
    findOptionByValue options vf (Json.str "") = Json.null ∧
    (∀ s : String, s ≠ "" →
        findOptionByValue options vf (Json.str s) = resolveScalar_spec options vf s) ∧
    (∀ n : Int, n ≠ 0 →
        findOptionByValue options vf (Json.num n) =
          resolveScalar_spec options vf (jsIntToString n)) := by
  refine ⟨rfl, rfl, rfl, rfl, ?_, ?_⟩
  · intro s hs
    have he : scalarMatch vf s = fun o => jsToString (getValueFromPath o vf) == s := rfl
    simp [findOptionByValue, Json.truthy, hs, resolveScalar_spec, he]
  · intro n hn
    have he : scalarMatch vf (jsIntToString n) =
        fun o => jsToString (getValueFromPath o vf) == jsIntToString n := rfl
    simp [findOptionByValue, Json.truthy, hn, resolveScalar_spec, he]

/-- Witness for claim C2 (amended) at a non-zero number. -/
theorem findOptionByValue_scalar_witness :
    findOptionByValue [Json.obj [("id", Json.num 7)]] (FieldSpec.path "id") (Json.num 7) =
      resolveScalar_spec [Json.obj [("id", Json.num 7)]] (FieldSpec.path "id")
        (jsIntToString 7) :=
  (findOptionByValue_scalar [Json.obj [("id", Json.num 7)]]
    (FieldSpec.path "id")).2.2.2.2.2 7 (by decide)

/-- Claim C9: the falsy scalars `0` and `""` resolve to `null` for every
options list, even when the scalar matcher would find a matching option —
the emptiness test precedes the lookup. -/
theorem findOptionByValue_falsy (options : List Json) (vf : FieldSpec) :
    findOptionByValue options vf (Json.num 0) = Json.null ∧
    findOptionByValue options vf (Json.str "") = Json.null ∧
    findOptionByValue [Json.obj [("id", Json.num 0)]] (FieldSpec.path "id") (Json.num 0) =
      Json.null ∧
    List.find? (scalarMatch (FieldSpec.path "id") (jsIntToString 0))
      [Json.obj [("id", Json.num 0)]] = some (Json.obj [("id", Json.num 0)]) ∧
    findOptionByValue [Json.obj [("id", Json.str "")]] (FieldSpec.path "id") (Json.str "") =
      Json.null ∧
    List.find? (scalarMatch (FieldSpec.path "id") "") [Json.obj [("id", Json.str "")]] =
      some (Json.obj [("id", Json.str "")]) :=
  ⟨rfl, rfl, rfl, rfl, rfl, rfl⟩

/-- Claim C10: `handleChange` never invokes the callback on a `null` option
or when no callback is configured, and every invocation passes the chosen
non-null option through. -/
theorem handleChange_null_no_callback (hasOnChange : Bool) (vf : FieldSpec) (option : Json) :
    handleChange hasOnChange vf Json.null = none ∧
    handleChange false vf option = none ∧
    (∀ value chosen, handleChange hasOnChange vf option = some (value, chosen) →
        chosen = option ∧ option ≠ Json.null) := by
  refine ⟨rfl, ?_, ?_⟩
  · simp [handleChange]
  · intro value chosen h
    by_cases ht : (option.truthy && hasOnChange) = true
    · constructor
      · unfold handleChange at h
        rw [if_pos ht] at h
        cases option <;> simp_all
      · intro he
        subst he
        simp [Json.truthy] at ht
    · unfold handleChange at h
      rw [if_neg ht] at h
      exact absurd h (by simp)

/-- Witness for claim C10 at a concrete selected option. -/
theorem handleChange_null_no_callback_witness :
    Json.obj [("id", Json.num 1)] = Json.obj [("id", Json.num 1)] ∧
    Json.obj [("id", Json.num 1)] ≠ Json.null :=
  (handleChange_null_no_callback true (FieldSpec.path "id")
    (Json.obj [("id", Json.num 1)])).2.2 (Json.num 1) (Json.obj [("id", Json.num 1)]) rfl

/-- Auxiliary: boolean equality tests are symmetric for lawful `BEq`. -/
theorem beq_flip {α : Type _} [BEq α] [LawfulBEq α] (a b : α) : (a == b) = (b == a) := by
  by_cases h : a = b
  · subst h; rfl
  · rw [beq_eq_false_iff_ne.mpr h, beq_eq_false_iff_ne.mpr (Ne.symm h)]

/-- Auxiliary: membership of a string among string-wrapped elements is plain
string membership. -/
theorem jsIncludes_map_str (ss : List String) (t : String) :
    jsIncludes (ss.map Json.str) (Json.str t) = ss.contains t := by
  induction ss with
  | nil => rfl
  | cons s rest ih =>
    simp only [List.map_cons, jsIncludes, List.any_cons] at ih ⊢
    rw [List.contains_cons,
      show sameValueZero (Json.str s) (Json.str t) = (s == t) from rfl, beq_flip s t, ih]

/-- Auxiliary: membership of a value among number-wrapped elements holds
only for the same number. -/
theorem jsIncludes_map_num (ns : List Int) (v : Json) :
    jsIncludes (ns.map Json.num) v =
      (match v with
        | Json.num m => ns.contains m
        | _ => false) := by
  induction ns with
  | nil => cases v <;> rfl
  | cons n rest ih =>
    cases v with
    | num m =>
      simp only [List.map_cons, jsIncludes, List.any_cons] at ih ⊢
      rw [List.contains_cons,
        show sameValueZero (Json.num n) (Json.num m) = (n == m) from rfl, beq_flip n m, ih]
    | undef =>
      simp only [List.map_cons, jsIncludes, List.any_cons] at ih ⊢
      rw [show sameValueZero (Json.num n) Json.undef = false from rfl, ih]
      rfl
    | null =>
      simp only [List.map_cons, jsIncludes, List.any_cons] at ih ⊢
      rw [show sameValueZero (Json.num n) Json.null = false from rfl, ih]
      rfl
    | bool b =>
      simp only [List.map_cons, jsIncludes, List.any_cons] at ih ⊢
      rw [show sameValueZero (Json.num n) (Json.bool b) = false from rfl, ih]
      rfl
    | str s =>
      simp only [List.map_cons, jsIncludes, List.any_cons] at ih ⊢
      rw [show sameValueZero (Json.num n) (Json.str s) = false from rfl, ih]
      rfl
    | arr xs =>
      simp only [List.map_cons, jsIncludes, List.any_cons] at ih ⊢
      rw [show sameValueZero (Json.num n) (Json.arr xs) = false from rfl, ih]
      rfl
    | obj fs =>
      simp only [List.map_cons, jsIncludes, List.any_cons] at ih ⊢
      rw [show sameValueZero (Json.num n) (Json.obj fs) = false from rfl, ih]
      rfl

/-- Claim C3 as stated is false: for the id list `[1]` (numbers) and an
option whose extracted value is the string `"1"`, the resolver returns the
empty list although the claimed stringified-membership rule selects the
option. -/
theorem findOptionByValue_list_counterexample :
    findOptionByValue [Json.obj [("id", Json.str "1")]] (FieldSpec.path "id")
      (Json.arr [Json.num 1]) = Json.arr [] ∧
    resolveList_spec [Json.obj [("id", Json.str "1")]] (FieldSpec.path "id")
      [jsIntToString 1] = Json.arr [Json.obj [("id", Json.str "1")]] ∧
    Json.arr [] ≠ Json.arr [Json.obj [("id", Json.str "1")]] := by
  refine ⟨rfl, rfl, fun h => ?_⟩
  have h2 := Json.arr.inj h
  simp at h2

/-- Claim C3 (amended): a list whose first element is a string filters the
options, in options order, by stringified membership as claimed; but a list
whose first element is a number filters by strict same-type membership —
the extracted value must literally be one of the listed numbers, with no
stringification. -/
theorem findOptionByValue_list (options : List Json) (vf : FieldSpec) :
    (∀ (ss : List String) (xs : List Json), xs = ss.map Json.str → xs ≠ [] →
        findOptionByValue options vf (Json.arr xs) = resolveList_spec options vf ss) ∧
    (∀ (ns : List Int) (xs : List Json), xs = ns.map Json.num → xs ≠ [] →
        findOptionByValue options vf (Json.arr xs) =
          Json.arr (options.filter (fun o =>
            match getValueFromPath o vf with
            | Json.num m => ns.contains m
            | _ => false))) := by
  constructor
  · rintro ss xs rfl hne
    obtain ⟨s, rest, rfl⟩ : ∃ a l, ss = a :: l := by
      cases ss with
      | nil => exact absurd rfl hne
      | cons a l => exact ⟨a, l, rfl⟩
    have hred : findOptionByValue options vf (Json.arr ((s :: rest).map Json.str)) =
        Json.arr (options.filter (fun o =>
          jsIncludes ((s :: rest).map Json.str)
            (Json.str (jsToString (getValueFromPath o vf))))) := rfl
    rw [hred]
    show _ = Json.arr (options.filter (fun o =>
      (s :: rest).contains (jsToString (getValueFromPath o vf))))
    congr 1
    exact List.filter_congr (fun o _ =>
      jsIncludes_map_str (s :: rest) (jsToString (getValueFromPath o vf)))
  · rintro ns xs rfl hne
    obtain ⟨n, rest, rfl⟩ : ∃ a l, ns = a :: l := by
      cases ns with
      | nil => exact absurd rfl hne
      | cons a l => exact ⟨a, l, rfl⟩
    have hred : findOptionByValue options vf (Json.arr ((n :: rest).map Json.num)) =
        Json.arr (options.filter (fun o =>
          jsIncludes ((n :: rest).map Json.num) (getValueFromPath o vf))) := rfl
    rw [hred]
    congr 1
    exact List.filter_congr (fun o _ =>
      jsIncludes_map_num (n :: rest) (getValueFromPath o vf))

/-- Witness for claim C3 (amended) at a concrete string id list. -/
theorem findOptionByValue_list_witness :
    findOptionByValue [Json.obj [("id", Json.str "a")]] (FieldSpec.path "id")
      (Json.arr [Json.str "a"]) =
      resolveList_spec [Json.obj [("id", Json.str "a")]] (FieldSpec.path "id") ["a"] :=
  (findOptionByValue_list [Json.obj [("id", Json.str "a")]] (FieldSpec.path "id")).1
    ["a"] [Json.str "a"] rfl (by simp)

/-- Auxiliary: once the focus latch is set it can never be unset. -/
theorem foldl_stepFocused_true (es : List UiEvent) : es.foldl stepFocused true = true := by
  induction es with
  | nil => rfl
  | cons e rest ih =>
    have h : stepFocused true e = true := by
      unfold stepFocused
      cases he : e.isFocus <;> simp
    rw [List.foldl_cons, h]
    exact ih

/-- Auxiliary: without a focus event the latch keeps its value. -/
theorem foldl_stepFocused_noFocus : ∀ (es : List UiEvent) (b : Bool),
    es.any UiEvent.isFocus = false → es.foldl stepFocused b = b := by
  intro es
  induction es with
  | nil => intro b _; rfl
  | cons e rest ih =>
    intro b h
    simp only [List.any_cons, Bool.or_eq_false_iff] at h
    have hstep : stepFocused b e = b := by
      unfold stepFocused
      rw [h.1]
      rfl
    rw [List.foldl_cons, hstep]
    exact ih b h.2

/-- Claim C8: for a configuration in one of the two supported modes
(paginated, or single-page with a string url), no fetch is enabled before
the first focus event, and after a focus event fetching is enabled and
remains enabled for every continuation of the event sequence. -/
theorem focus_gating (infinite : Bool) (url : UrlSpec)
    (hmode : infinite = true ∨ url.isString = true) :
    (∀ es : List UiEvent, es.any UiEvent.isFocus = false →
        fetchEnabled infinite url (runFocused es) = false) ∧
    (∀ es es2 : List UiEvent,
        fetchEnabled infinite url (runFocused (es ++ UiEvent.focus :: es2)) = true) := by
  constructor
  · intro es h
    have hrun : runFocused es = false := foldl_stepFocused_noFocus es false h
    rw [hrun]
    simp [fetchEnabled, regularEnabled, infiniteEnabled]
  · intro es es2
    have hrun : runFocused (es ++ UiEvent.focus :: es2) = true := by
      unfold runFocused
      rw [List.foldl_append, List.foldl_cons]
      have hstep : stepFocused (List.foldl stepFocused false es) UiEvent.focus = true := rfl
      rw [hstep]
      exact foldl_stepFocused_true es2
    rw [hrun]
    rcases hmode with h | h
    · simp [fetchEnabled, regularEnabled, infiniteEnabled, h]
    · cases infinite <;> simp [fetchEnabled, regularEnabled, infiniteEnabled, h]

/-- Witness for claim C8 in paginated mode: disabled before focus, enabled
after. -/
theorem focus_gating_witness :
    fetchEnabled true (UrlSpec.str "u") (runFocused [UiEvent.inputChange "a"]) = false ∧
    fetchEnabled true (UrlSpec.str "u")
      (runFocused ([UiEvent.inputChange "a"] ++ UiEvent.focus :: [])) = true :=
  ⟨(focus_gating true (UrlSpec.str "u") (Or.inl rfl)).1 [UiEvent.inputChange "a"] rfl,
    (focus_gating true (UrlSpec.str "u") (Or.inl rfl)).2 [UiEvent.inputChange "a"] []⟩
